import Mathlib

/-!
Shallow embedding of the texoutparse log parser (src/parser.rs, src/report.rs).

Lines of text are modelled as `List Char`.  Each of the five compiled regular
expressions of `parser.rs` is modelled as an executable recogniser that follows
the regex structure with the leftmost-first alternation preference and greedy
repetition of the Rust regex crate; named/numbered capture groups become fields
of a capture structure.  The character classes \w, \d and the whitespace test
are modelled on the ASCII range, which covers the log lines the parser is
aimed at.

The fallible `unwrap` calls of the extraction code are modelled by making the
corresponding processing functions return `Option`: a `none` result is the
panic (abort) outcome.
-/

set_option maxHeartbeats 1000000

namespace Texoutparse

/-- Models Rust \w (word character), ASCII range: letters, digits, underscore. -/
def isWordChar (c : Char) : Bool := c.isAlphanum || c = '_'

/-- Models Rust char::is_whitespace on the ASCII range. -/
def isWs (c : Char) : Bool :=
  c = ' ' || c = '\t' || c = '\n' || c = '\x0b' || c = '\x0c' || c = '\r'

/-- Models regex alternation with the leftmost-first preference of the Rust
regex crate: the right alternative applies only when the left one fails. -/
def regexAlt {α : Type} (a b : Option α) : Option α :=
  match a with
  | some r => some r
  | none => b

/-- Strip the literal prefix `p` from `cs`, returning the remainder, or `none`
when `cs` does not start with `p`.  Models a literal fragment of a regex. -/
def stripLit : List Char → List Char → Option (List Char)
  | [], cs => some cs
  | _ :: _, [] => none
  | c :: p, d :: cs => if c = d then stripLit p cs else none

/-- Models the alternation ((?:La|pdf)TeX|Package|Class) heading the ERROR,
WARNING and INFO regexes (capture group 1).  The four alternatives begin with
pairwise distinct characters, so trying them in regex order needs no
backtracking. -/
def matchType (cs : List Char) : Option (List Char × List Char) :=
  match stripLit "LaTeX".toList cs with
  | some r => some ("LaTeX".toList, r)
  | none =>
  match stripLit "pdfTeX".toList cs with
  | some r => some ("pdfTeX".toList, r)
  | none =>
  match stripLit "Package".toList cs with
  | some r => some ("Package".toList, r)
  | none =>
  match stripLit "Class".toList cs with
  | some r => some ("Class".toList, r)
  | none => none

/-- Models the case-insensitive first letter of the keyword ([eE]rror,
[wW]arning, [iI]nfo) followed by the rest of the keyword. -/
def matchKeyword (up low : Char) (ktail rest : List Char) : Option (List Char) :=
  match rest with
  | [] => none
  | c :: cs => if c = up ∨ c = low then stripLit ktail cs else none

/-- Models the common regex suffix (?: \(([\x5c]?\w+)\))?: (.*) of the ERROR,
WARNING and INFO patterns: an optional parenthesised extra capture, the literal
": ", then the message capture (.*) which stops before a newline.  Returns
(extra, message, rest-of-input).  The optional group is tried first, matching
the leftmost-first preference. -/
def matchAfterKw (cs : List Char) : Option (Option (List Char) × List Char × List Char) :=
  match
    (match stripLit " (".toList cs with
     | none => none
     | some cs1 =>
       let (bs, cs2) : List Char × List Char :=
         match cs1 with
         | '\\' :: r => (['\\'], r)
         | _ => ([], cs1)
       let w := cs2.takeWhile isWordChar
       let cs3 := cs2.dropWhile isWordChar
       if w = [] then none
       else
         match stripLit "): ".toList cs3 with
         | none => none
         | some cs4 =>
           let msg := cs4.takeWhile (fun c => c ≠ '\n')
           some (some (bs ++ w), msg, cs4.dropWhile (fun c => c ≠ '\n')))
  with
  | some r => some r
  | none =>
    match stripLit ": ".toList cs with
    | none => none
    | some cs1 =>
      let msg := cs1.takeWhile (fun c => c ≠ '\n')
      some (none, msg, cs1.dropWhile (fun c => c ≠ '\n'))

/-- Models the part (?: (\w+))? [kK]eyword(?: \(([\x5c]?\w+)\))?: (.*) after
the type alternation: an optional component-name capture (group 2), the
keyword, then `matchAfterKw`.  Returns (name, extra, message, rest).
Taking the optional name group is preferred; a shorter-than-maximal \w+ run
can never succeed because the continuation requires a space, so greedy
matching is deterministic here. -/
def matchGenericAfterType (up low : Char) (ktail cs : List Char) :
    Option (Option (List Char) × Option (List Char) × List Char × List Char) :=
  match cs with
  | ' ' :: cs1 =>
    match
      (let w := cs1.takeWhile isWordChar
       let cs2 := cs1.dropWhile isWordChar
       if w = [] then none
       else
         match cs2 with
         | ' ' :: cs3 =>
           match matchKeyword up low ktail cs3 with
           | none => none
           | some cs4 =>
             match matchAfterKw cs4 with
             | none => none
             | some (extra, msg, rest) => some (some w, extra, msg, rest)
         | _ => none)
    with
    | some r => some r
    | none =>
      match matchKeyword up low ktail cs1 with
      | none => none
      | some cs4 =>
        match matchAfterKw cs4 with
        | none => none
        | some (extra, msg, rest) => some ((none : Option (List Char)), extra, msg, rest)
  | _ => none

/-- Captures of the WARNING / INFO regexes and of the first ERROR alternative:
group 0 (`full`), group 1 (`ctype`), group 2 (`name`), group 3 (`extra`),
group 4 (`message`). -/
structure GenCaps where
  full : List Char
  ctype : List Char
  name : Option (List Char)
  extra : Option (List Char)
  message : List Char
  deriving DecidableEq

/-- Models WARNING.captures(line): the anchored regex
^((?:La|pdf)TeX|Package|Class)(?: (\w+))? [wW]arning(?: \(([\x5c]?\w+)\))?: (.*) -/
def warningCaptures (line : List Char) : Option GenCaps :=
  match matchType line with
  | none => none
  | some (t, cs) =>
    match matchGenericAfterType 'W' 'w' "arning".toList cs with
    | none => none
    | some (n, e, msg, rest) =>
      some { full := line.take (line.length - rest.length), ctype := t,
             name := n, extra := e, message := msg }

/-- Models INFO.captures(line): same shape as WARNING with [iI]nfo. -/
def infoCaptures (line : List Char) : Option GenCaps :=
  match matchType line with
  | none => none
  | some (t, cs) =>
    match matchGenericAfterType 'I' 'i' "nfo".toList cs with
    | none => none
    | some (n, e, msg, rest) =>
      some { full := line.take (line.length - rest.length), ctype := t,
             name := n, extra := e, message := msg }

/-- Captures of the ERROR regex: either the componentful first alternative
(groups 1-4, as `GenCaps`) or the bare second alternative `! (.*)`
(group 5, constructor `bare` holding group 0 and group 5). -/
inductive ErrCaps where
  | comp (g : GenCaps)
  | bare (full message : List Char)
  deriving DecidableEq

/-- Models ERROR.captures(line): the anchored regex
^(?:! ((?:La|pdf)TeX|Package|Class)(?: (\w+))? [eE]rror(?: \(([\x5c]?\w+)\))?: (.*)|! (.*)).
The first alternative is preferred (leftmost-first). -/
def errorCaptures (line : List Char) : Option ErrCaps :=
  match stripLit "! ".toList line with
  | none => none
  | some cs =>
    match
      (match matchType cs with
       | none => none
       | some (t, cs2) =>
         match matchGenericAfterType 'E' 'e' "rror".toList cs2 with
         | none => none
         | some (n, e, msg, rest) =>
           some { full := line.take (line.length - rest.length), ctype := t,
                  name := n, extra := e, message := msg })
    with
    | some g => some (ErrCaps.comp g)
    | none =>
      let msg := cs.takeWhile (fun c => c ≠ '\n')
      some (ErrCaps.bare
        (line.take (line.length - (cs.dropWhile (fun c => c ≠ '\n')).length)) msg)

/-- Captures of the BADBOX regex: groups 1-8 by their source comment names. -/
structure BadboxCaps where
  full : List Char
  btype : List Char
  direction : List Char
  badness : Option (List Char)
  size : Option (List Char)
  start_line : Option (List Char)
  end_line : Option (List Char)
  line : Option (List Char)
  page : Option (List Char)
  deriving DecidableEq

/-- Models the badbox measure alternation (?:badness (\d+)|(\d+(?:\.\d+)?pt) too \w+)
inside the parentheses, returning (group 3, group 4, rest).  The "badness"
alternative is tried first; the two alternatives start with distinct characters
(letter b versus a digit), so the order is deterministic. -/
def matchMeasure (cs : List Char) : Option (Option (List Char) × Option (List Char) × List Char) :=
  regexAlt
    (match stripLit "badness ".toList cs with
     | none => none
     | some cs1 =>
       let ds := cs1.takeWhile Char.isDigit
       if ds = [] then none
       else some ((some ds : Option (List Char)), (none : Option (List Char)),
                  cs1.dropWhile Char.isDigit))
    (let d1 := cs.takeWhile Char.isDigit
    let cs1 := cs.dropWhile Char.isDigit
    if d1 = [] then none
    else
      let (frac, cs2) : List Char × List Char :=
        match cs1 with
        | '.' :: r =>
          let d2 := r.takeWhile Char.isDigit
          if d2 = [] then ([], cs1) else ('.' :: d2, r.dropWhile Char.isDigit)
        | _ => ([], cs1)
      match stripLit "pt too ".toList cs2 with
      | none => none
      | some cs3 =>
        let w := cs3.takeWhile isWordChar
        if w = [] then none
        else some ((none : Option (List Char)), some (d1 ++ frac ++ "pt".toList),
                   cs3.dropWhile isWordChar))

/-- Models the ranged location clause "at lines (\d+)--(\d+)" (groups 5, 6);
the emptiness test on the greedy digit runs is written as a constructor match. -/
def locLines (cs2 : List Char) :
    Option (Option (List Char) × Option (List Char) × Option (List Char) × Option (List Char) × List Char) :=
  match stripLit "at lines ".toList cs2 with
  | none => none
  | some cs3 =>
    match cs3.takeWhile Char.isDigit with
    | [] => none
    | c :: cs =>
      match stripLit "--".toList (cs3.dropWhile Char.isDigit) with
      | none => none
      | some cs5 =>
        match cs5.takeWhile Char.isDigit with
        | [] => none
        | c2 :: cs6 =>
          some ((some (c :: cs) : Option (List Char)), (some (c2 :: cs6) : Option (List Char)),
                (none : Option (List Char)), (none : Option (List Char)),
                cs5.dropWhile Char.isDigit)

/-- Models the single-line location clause "at line (\d+)" (group 7). -/
def locLine (cs2 : List Char) :
    Option (Option (List Char) × Option (List Char) × Option (List Char) × Option (List Char) × List Char) :=
  match stripLit "at line ".toList cs2 with
  | none => none
  | some cs3 =>
    match cs3.takeWhile Char.isDigit with
    | [] => none
    | c :: cs =>
      some ((none : Option (List Char)), (none : Option (List Char)),
            (some (c :: cs) : Option (List Char)), (none : Option (List Char)),
            cs3.dropWhile Char.isDigit)

/-- Models the output-active location clause
"has occurred while [\x5c]output is active [\x5b](\d+)?[\x5d]" (group 8);
the optional digit run is captured when nonempty. -/
def locPage (cs : List Char) :
    Option (Option (List Char) × Option (List Char) × Option (List Char) × Option (List Char) × List Char) :=
  match stripLit "has occurred while \\output is active [".toList cs with
  | none => none
  | some cs1 =>
    match stripLit "]".toList (cs1.dropWhile Char.isDigit) with
    | none => none
    | some cs3 =>
      some ((none : Option (List Char)), (none : Option (List Char)),
            (none : Option (List Char)),
            (match cs1.takeWhile Char.isDigit with
             | [] => none
             | c :: cs => some (c :: cs)), cs3)

/-- Models the badbox location alternation
(?:(?:(?:in paragraph|in alignment|detected) (?:at lines (\d+)--(\d+)|at line (\d+)))|(?:has occurred while [\x5c]output is active [\x5b](\d+)?[\x5d])),
returning (group 5, group 6, group 7, group 8, rest). -/
def matchLocation (cs : List Char) :
    Option (Option (List Char) × Option (List Char) × Option (List Char) × Option (List Char) × List Char) :=
  regexAlt
    (match regexAlt (stripLit "in paragraph".toList cs)
             (regexAlt (stripLit "in alignment".toList cs) (stripLit "detected".toList cs))
     with
     | none => none
     | some cs1 =>
       match cs1 with
       | ' ' :: cs2 => regexAlt (locLines cs2) (locLine cs2)
       | _ => none)
    (locPage cs)

/-- Models BADBOX.captures(line): the anchored regex
^(Over|Under)full \x5c([hv])box \((?:badness (\d+)|(\d+(?:\.\d+)?pt) too \w+)\) followed
by the location alternation. -/
def badboxCaptures (l : List Char) : Option BadboxCaps :=
  match
    (match stripLit "Over".toList l with
     | some r => some ("Over".toList, r)
     | none =>
       match stripLit "Under".toList l with
       | some r => some ("Under".toList, r)
       | none => none)
  with
  | none => none
  | some (t, cs1) =>
    match stripLit "full \\".toList cs1 with
    | none => none
    | some cs2 =>
      match cs2 with
      | c :: cs3 =>
        if c = 'h' ∨ c = 'v' then
          match stripLit "box (".toList cs3 with
          | none => none
          | some cs4 =>
            match matchMeasure cs4 with
            | none => none
            | some (bad, sz, cs5) =>
              match stripLit ") ".toList cs5 with
              | none => none
              | some cs6 =>
                match matchLocation cs6 with
                | none => none
                | some (s, e, ln, pg, rest) =>
                  some { full := l.take (l.length - rest.length), btype := t,
                         direction := [c], badness := bad, size := sz,
                         start_line := s, end_line := e, line := ln, page := pg }
        else none
      | [] => none

/-- Captures of the MISSING_REFERENCE regex: group 1 (`kind`, the keyword
Citation or Reference) and group 2 (`label`). -/
structure RefCaps where
  kind : List Char
  label : List Char
  deriving DecidableEq

/-- Models MISSING_REFERENCE.captures(msg): the anchored regex
^(Citation|Reference) \x60([^\x27]+)\x27 on page \d+ undefined on input line \d+.
where the final unescaped dot matches any single character except newline
(by greedy backtracking it may also consume the last digit of the line
number when nothing follows). -/
def missingRefCaptures (msg : List Char) : Option RefCaps :=
  match
    (match stripLit "Citation".toList msg with
     | some r => some ("Citation".toList, r)
     | none =>
       match stripLit "Reference".toList msg with
       | some r => some ("Reference".toList, r)
       | none => none)
  with
  | none => none
  | some (k, cs1) =>
    match stripLit " `".toList cs1 with
    | none => none
    | some cs2 =>
      let lab := cs2.takeWhile (fun c => c ≠ '\x27')
      let cs3 := cs2.dropWhile (fun c => c ≠ '\x27')
      if lab = [] then none
      else
        match stripLit "\x27 on page ".toList cs3 with
        | none => none
        | some cs4 =>
          let d1 := cs4.takeWhile Char.isDigit
          let cs5 := cs4.dropWhile Char.isDigit
          if d1 = [] then none
          else
            match stripLit " undefined on input line ".toList cs5 with
            | none => none
            | some cs6 =>
              let d2 := cs6.takeWhile Char.isDigit
              let cs7 := cs6.dropWhile Char.isDigit
              if d2 = [] then none
              else if 2 ≤ d2.length then some { kind := k, label := lab }
              else
                match cs7 with
                | [] => none
                | c :: _ => if c = '\n' then none else some { kind := k, label := lab }

/-! ## Report data model (src/report.rs) -/

/-- Models the details HashMap<String, String> of a MessageInfo as an
association list with insert-replace semantics; only key lookups are ever
observed, so this is an exact model. -/
abbrev Details := List (String × List Char)

/-- Insert `(k, v)` replacing an existing binding of `k`, as HashMap::insert. -/
def insertD (k : String) (v : List Char) : Details → Details
  | [] => [(k, v)]
  | (k1, v1) :: rest => if k1 = k then (k, v) :: rest else (k1, v1) :: insertD k v rest

/-- Models HashMap::get / contains_key. -/
def lookupD (k : String) : Details → Option (List Char)
  | [] => none
  | (k1, v) :: rest => if k1 = k then some v else lookupD k rest

/-- Models report.rs MessageInfo. -/
structure MessageInfo where
  full : List Char
  details : Details
  context_lines : List (List Char)
  deriving DecidableEq

/-- Models MessageInfo::get_component_name: component, else package, else class. -/
def MessageInfo.get_component_name (i : MessageInfo) : Option (List Char) :=
  match lookupD "component" i.details with
  | some v => some v
  | none =>
    match lookupD "package" i.details with
    | some v => some v
    | none => lookupD "class" i.details

/-- Models MessageInfo::extend_message: push onto the existing "message" value,
or insert the key when absent. -/
def MessageInfo.extend_message (i : MessageInfo) (msg : List Char) : MessageInfo :=
  match lookupD "message" i.details with
  | some cur => { i with details := insertD "message" (cur ++ msg) i.details }
  | none => { i with details := insertD "message" msg i.details }

/-- Models report.rs Message. -/
inductive Message where
  | error (i : MessageInfo)
  | warning (i : MessageInfo)
  | badbox (i : MessageInfo)
  | info (i : MessageInfo)
  | missingCitation (label : List Char)
  | missingReference (label : List Char)
  deriving DecidableEq

/-- Models Message::get_component_name: delegates for Error, Warning and Info,
and answers None for every other variant. -/
def Message.get_component_name : Message → Option (List Char)
  | .error i => i.get_component_name
  | .warning i => i.get_component_name
  | .info i => i.get_component_name
  | _ => none

/-- Models Message::extend_message, which calls self.as_mut().unwrap():
`none` is the panic outcome, reached exactly on the variants for which
as_mut() returns None. -/
def Message.extend_message : Message → List Char → Option Message
  | .error i, m => some (.error (i.extend_message m))
  | .warning i, m => some (.warning (i.extend_message m))
  | .badbox i, m => some (.badbox (i.extend_message m))
  | .info i, m => some (.info (i.extend_message m))
  | .missingCitation _, _ => none
  | .missingReference _, _ => none

/-- Models report.rs BuildReport. -/
structure BuildReport where
  errors : Nat
  warnings : Nat
  badboxes : Nat
  info : Nat
  missing_references : Nat
  missing_citations : Nat
  messages : List Message
  deriving DecidableEq

/-- Models BuildReport::new. -/
def BuildReport.new : BuildReport :=
  { errors := 0, warnings := 0, badboxes := 0, info := 0,
    missing_references := 0, missing_citations := 0, messages := [] }

/-! ## Extraction (the process_* methods of LogParser) -/

/-- Models LogParser::process_generic: builds a MessageInfo from the shared
capture layout of the INFO / WARNING / componentful ERROR matches. -/
def process_generic (g : GenCaps) : MessageInfo :=
  let d0 := insertD "type" g.ctype ([] : Details)
  let d1 :=
    match g.name with
    | some n =>
      insertD
        (if g.ctype = "Package".toList then "package"
         else if g.ctype = "Class".toList then "class"
         else "component") n d0
    | none => d0
  let d2 :=
    match g.extra with
    | some e => insertD "extra" e d1
    | none => d1
  let d3 := insertD "message" g.message d2
  { full := g.full, details := d3, context_lines := [] }

/-- Models LogParser::process_info. -/
def process_info (r : BuildReport) (g : GenCaps) : BuildReport :=
  { r with info := r.info + 1,
           messages := r.messages ++ [Message.info (process_generic g)] }

/-- Models LogParser::process_badbox.  The two m.get(..).unwrap() calls on the
measure groups and the one on the ranged end-line group are modelled by
`none` (panic) when the group is absent. -/
def process_badbox (r : BuildReport) (m : BadboxCaps) : Option BuildReport :=
  let d0 := insertD "direction" m.direction (insertD "type" m.btype ([] : Details))
  match
    (if m.btype = "Over".toList then
       match m.size with
       | some s => some (insertD "by" s d0)
       | none => none
     else if m.btype = "Under".toList then
       match m.badness with
       | some b => some (insertD "by" b d0)
       | none => none
     else some d0)
  with
  | none => none
  | some d1 =>
    match
      (match m.line with
       | some l => some (insertD "line" l d1)
       | none =>
         match m.start_line with
         | some s =>
           match m.end_line with
           | some e => some (insertD "end_line" e (insertD "start_line" s d1))
           | none => none
         | none => some d1)
    with
    | none => none
    | some d2 =>
      let d3 :=
        match m.page with
        | some p => insertD "page" p d2
        | none => d2
      some { r with badboxes := r.badboxes + 1,
                    messages := r.messages ++
                      [Message.badbox { full := m.full, details := d3, context_lines := [] }] }

/-- Models LogParser::process_missing_reference. -/
def process_missing_reference (r : BuildReport) (label : List Char) : BuildReport :=
  { r with missing_references := r.missing_references + 1,
           messages := r.messages ++ [Message.missingReference label] }

/-- Models LogParser::process_missing_citation. -/
def process_missing_citation (r : BuildReport) (label : List Char) : BuildReport :=
  { r with missing_citations := r.missing_citations + 1,
           messages := r.messages ++ [Message.missingCitation label] }

/-- Models LogParser::process_warning, including the recoding of warnings whose
message matches MISSING_REFERENCE into MissingCitation / MissingReference. -/
def process_warning (r : BuildReport) (g : GenCaps) : BuildReport :=
  let i := process_generic g
  match lookupD "message" i.details with
  | some message =>
    (match missingRefCaptures message with
     | some rc =>
       if rc.kind = "Citation".toList then process_missing_citation r rc.label
       else if rc.kind = "Reference".toList then process_missing_reference r rc.label
       else r
     | none =>
       { r with warnings := r.warnings + 1,
                messages := r.messages ++ [Message.warning i] })
  | none =>
    { r with warnings := r.warnings + 1,
             messages := r.messages ++ [Message.warning i] }

/-- Models LogParser::process_error: the bare alternative (group 5 present)
stores only the message; otherwise the generic extraction runs. -/
def process_error (r : BuildReport) (e : ErrCaps) : BuildReport :=
  match e with
  | .bare full msg =>
    { r with errors := r.errors + 1,
             messages := r.messages ++
               [Message.error { full := full,
                                details := insertD "message" msg ([] : Details),
                                context_lines := [] }] }
  | .comp g =>
    { r with errors := r.errors + 1,
             messages := r.messages ++ [Message.error (process_generic g)] }

/-- Models LogParser::parse_line: the recognisers are tried in the order
INFO, BADBOX, WARNING, ERROR, stopping at the first match; a line matching
none of them leaves the report untouched.  A `none` result is a panic inside
process_badbox. -/
def parse_line (r : BuildReport) (line : List Char) : Option BuildReport :=
  match infoCaptures line with
  | some m => some (process_info r m)
  | none =>
    match badboxCaptures line with
    | some m => process_badbox r m
    | none =>
      match warningCaptures line with
      | some m => some (process_warning r m)
      | none =>
        match errorCaptures line with
        | some m => some (process_error r m)
        | none => some r

/-! ## Driver (LogParser::parse and parse_log) -/

/-- Fuel-driven worker for `trimStartMatches`; the fuel is an upper bound on
the input length, and each successful strip removes at least one character. -/
def trimAux : Nat → List Char → List Char → List Char
  | 0, _, cs => cs
  | Nat.succ n, p, cs =>
    if p ≠ [] ∧ p.isPrefixOf cs = true then trimAux n p (cs.drop p.length) else cs

/-- Models str::trim_start_matches with a string pattern: repeatedly removes
the prefix `p` while the input starts with it. -/
def trimStartMatches (p cs : List Char) : List Char :=
  trimAux cs.length p cs

/-- Models str::trim_start (leading-whitespace removal). -/
def trimStart (cs : List Char) : List Char := cs.dropWhile isWs

/-- The continuation-line pattern format!("({}) ", cmpt). -/
def contPattern (cmpt : List Char) : List Char := '(' :: (cmpt ++ [')', ' '])

/-- Models one iteration of the loop in LogParser::parse: consult the most
recently appended message for a component name, merge the line into it when
the line starts with "(name) ", and otherwise classify the line.  The in-place
mutation through last_mut() becomes replacement of the last list element. -/
def parseStep (r : BuildReport) (line : List Char) : Option BuildReport :=
  match r.messages.getLast? with
  | some last =>
    match last.get_component_name with
    | some cmpt =>
      if (contPattern cmpt).isPrefixOf line then
        match last.extend_message (trimStart (trimStartMatches (contPattern cmpt) line)) with
        | some last2 => some { r with messages := r.messages.dropLast ++ [last2] }
        | none => none
      else parse_line r line
    | none => parse_line r line
  | none => parse_line r line

/-- Models the loop of LogParser::parse over the whole line sequence. -/
def parseLines : BuildReport → List (List Char) → Option BuildReport
  | r, [] => some r
  | r, l :: ls =>
    match parseStep r l with
    | some r2 => parseLines r2 ls
    | none => none

/-- Models BufRead::read_line driven to exhaustion: splits the input text into
lines, each retaining its terminating newline; a final unterminated segment is
yielded as well, and a terminating newline yields no extra empty line. -/
def splitLinesAux : List Char → List Char → List (List Char)
  | [], acc => if acc = [] then [] else [acc.reverse]
  | c :: rest, acc =>
    if c = '\n' then (c :: acc).reverse :: splitLinesAux rest []
    else splitLinesAux rest (c :: acc)

/-- Splits a whole log text into physical lines as read_line would. -/
def splitLines (cs : List Char) : List (List Char) := splitLinesAux cs []

/-- Models parse_log: run the parser over the split lines of the input,
starting from BuildReport::new.  A `none` result is a panic during the pass. -/
def parse_log (input : List Char) : Option BuildReport :=
  parseLines BuildReport.new (splitLines input)

/-! ## Specification-side definitions used by the theorems -/

/-- Does a message use the Error constructor? -/
def isErrorM : Message → Bool
  | .error _ => true
  | _ => false

/-- Does a message use the Warning constructor? -/
def isWarningM : Message → Bool
  | .warning _ => true
  | _ => false

/-- Does a message use the Badbox constructor? -/
def isBadboxM : Message → Bool
  | .badbox _ => true
  | _ => false

/-- Does a message use the Info constructor? -/
def isInfoM : Message → Bool
  | .info _ => true
  | _ => false

/-- Does a message use the MissingReference constructor? -/
def isMissingRefM : Message → Bool
  | .missingReference _ => true
  | _ => false

/-- Does a message use the MissingCitation constructor? -/
def isMissingCitM : Message → Bool
  | .missingCitation _ => true
  | _ => false

/-- Number of messages of a given kind. -/
def countKind (p : Message → Bool) (ms : List Message) : Nat := (ms.filter p).length

/-- Each of the six counters equals the number of messages of its kind. -/
def countersMatch (r : BuildReport) : Prop :=
  r.errors = countKind isErrorM r.messages ∧
  r.warnings = countKind isWarningM r.messages ∧
  r.badboxes = countKind isBadboxM r.messages ∧
  r.info = countKind isInfoM r.messages ∧
  r.missing_references = countKind isMissingRefM r.messages ∧
  r.missing_citations = countKind isMissingCitM r.messages

/-- k-fold repetition of a pattern, for stating what trim_start_matches removes. -/
def repN (p : List Char) : Nat → List Char
  | 0 => []
  | Nat.succ k => p ++ repN p k

/-- A message that the continuation merger can target: it carries component
name `cmpt` and its record currently holds message text `cur`. -/
def mergeTarget (m : Message) (cmpt cur : List Char) : Prop :=
  m.get_component_name = some cmpt ∧
  ∃ i, (m = Message.error i ∨ m = Message.warning i ∨ m = Message.info i) ∧
    lookupD "message" i.details = some cur

/-! ## Helper lemmas -/

theorem regexAlt_eq_some {α : Type} (a b : Option α) (x : α)
    (h : regexAlt a b = some x) : a = some x ∨ (a = none ∧ b = some x) := by
  cases a <;> simp_all [regexAlt]

theorem stripLit_append (p cs : List Char) : stripLit p (p ++ cs) = some cs := by
  induction p with
  | nil => rfl
  | cons c p ih => simp [stripLit, ih]

theorem isPrefixOf_append (p t : List Char) : p.isPrefixOf (p ++ t) = true := by
  induction p with
  | nil => simp [List.isPrefixOf]
  | cons c p ih => simp [List.isPrefixOf, ih]

theorem trimAux_fuel : ∀ (n : Nat) (p cs : List Char), cs.length ≤ n →
    trimAux n p cs = trimAux cs.length p cs := by
  intro n
  induction n using Nat.strong_induction_on with
  | _ n ih =>
    intro p cs hle
    cases n with
    | zero =>
      have hnil : cs = [] := List.length_eq_zero.mp (Nat.le_zero.mp hle)
      subst hnil; rfl
    | succ m =>
      cases cs with
      | nil => cases p <;> simp [trimAux, List.isPrefixOf]
      | cons c cs0 =>
        show trimAux (m + 1) p (c :: cs0) = trimAux (cs0.length + 1) p (c :: cs0)
        simp only [trimAux]
        by_cases h : p ≠ [] ∧ p.isPrefixOf (c :: cs0) = true
        · rw [if_pos h, if_pos h]
          have hp : 1 ≤ p.length := by
            cases p with
            | nil => exact absurd rfl h.1
            | cons a b => simp
          have hlen : ((c :: cs0).drop p.length).length = cs0.length + 1 - p.length := by
            simp [List.length_drop]
          have hrest : ((c :: cs0).drop p.length).length ≤ cs0.length := by omega
          have hm : cs0.length ≤ m := by simpa using hle
          rw [ih m (by omega) p _ (le_trans hrest hm),
              ih cs0.length (by omega) p _ hrest]
        · rw [if_neg h, if_neg h]

theorem trimStartMatches_eq (p cs : List Char) :
    trimStartMatches p cs =
      if p ≠ [] ∧ p.isPrefixOf cs = true then trimStartMatches p (cs.drop p.length) else cs := by
  unfold trimStartMatches
  cases cs with
  | nil => cases p <;> simp [trimAux, List.isPrefixOf]
  | cons c cs0 =>
    show trimAux (cs0.length + 1) p (c :: cs0) = _
    simp only [trimAux]
    by_cases h : p ≠ [] ∧ p.isPrefixOf (c :: cs0) = true
    · rw [if_pos h, if_pos h]
      have hp : 1 ≤ p.length := by
        cases p with
        | nil => exact absurd rfl h.1
        | cons a b => simp
      have hlen : ((c :: cs0).drop p.length).length = cs0.length + 1 - p.length := by
        simp [List.length_drop]
      exact trimAux_fuel cs0.length p _ (by omega)
    · rw [if_neg h, if_neg h]

theorem trimStartMatches_of_not (p cs : List Char) (h : p.isPrefixOf cs = false) :
    trimStartMatches p cs = cs := by
  rw [trimStartMatches_eq]; simp [h]

theorem trimStartMatches_stripOnce (p cs : List Char) (hp : p ≠ []) :
    trimStartMatches p (p ++ cs) = trimStartMatches p cs := by
  rw [trimStartMatches_eq, if_pos ⟨hp, isPrefixOf_append p (p ++ cs) ▸ isPrefixOf_append p cs⟩]
  · rw [List.drop_left]

theorem trimStartMatches_repN (p t : List Char) (hp : p ≠ []) (h : p.isPrefixOf t = false) :
    ∀ k, trimStartMatches p (repN p k ++ t) = t := by
  intro k
  induction k with
  | zero => simpa [repN] using trimStartMatches_of_not p t h
  | succ k ih =>
    have : repN p (k + 1) ++ t = p ++ (repN p k ++ t) := by simp [repN]
    rw [this, trimStartMatches_stripOnce p _ hp, ih]

theorem lookupD_insertD_self (k : String) (v : List Char) (d : Details) :
    lookupD k (insertD k v d) = some v := by
  induction d with
  | nil => simp [insertD, lookupD]
  | cons kv rest ih =>
    obtain ⟨k1, v1⟩ := kv
    by_cases h : k1 = k <;> simp [insertD, lookupD, h, ih]

theorem lookupD_insertD_ne {k1 k2 : String} (h : k1 ≠ k2) (v : List Char) (d : Details) :
    lookupD k1 (insertD k2 v d) = lookupD k1 d := by
  induction d with
  | nil => simp [insertD, lookupD, Ne.symm h]
  | cons kv rest ih =>
    obtain ⟨k0, v0⟩ := kv
    by_cases h0 : k0 = k2
    · subst h0
      simp [insertD, lookupD, Ne.symm h]
    · simp [insertD, lookupD, h0, ih]

theorem process_generic_message (g : GenCaps) :
    lookupD "message" (process_generic g).details = some g.message := by
  simp only [process_generic]
  exact lookupD_insertD_self _ _ _

theorem extend_message_lookup (i : MessageInfo) (cur s : List Char)
    (h : lookupD "message" i.details = some cur) :
    lookupD "message" (i.extend_message s).details = some (cur ++ s) := by
  simp only [MessageInfo.extend_message, h]
  exact lookupD_insertD_self _ _ _

theorem get_component_name_extend (i : MessageInfo) (s : List Char) :
    (i.extend_message s).get_component_name = i.get_component_name := by
  simp only [MessageInfo.extend_message]
  cases h : lookupD "message" i.details <;>
    simp only [MessageInfo.get_component_name,
      lookupD_insertD_ne (show "component" ≠ "message" by decide),
      lookupD_insertD_ne (show "package" ≠ "message" by decide),
      lookupD_insertD_ne (show "class" ≠ "message" by decide)]

theorem mergeTarget_extend (m : Message) (cmpt cur s : List Char)
    (h : mergeTarget m cmpt cur) :
    ∃ m2, m.extend_message s = some m2 ∧ mergeTarget m2 cmpt (cur ++ s) := by
  obtain ⟨hc, i, hvar, hmsg⟩ := h
  rcases hvar with h1 | h1 | h1 <;> subst h1 <;>
    exact ⟨_, rfl,
      by simpa [Message.get_component_name, get_component_name_extend] using hc,
      i.extend_message s, by simp,
      extend_message_lookup i cur s hmsg⟩

theorem extend_message_kind (m m2 : Message) (s : List Char)
    (h : m.extend_message s = some m2) :
    isErrorM m2 = isErrorM m ∧ isWarningM m2 = isWarningM m ∧
    isBadboxM m2 = isBadboxM m ∧ isInfoM m2 = isInfoM m ∧
    isMissingRefM m2 = isMissingRefM m ∧ isMissingCitM m2 = isMissingCitM m := by
  cases m <;> simp [Message.extend_message] at h <;> subst h <;>
    simp [isErrorM, isWarningM, isBadboxM, isInfoM, isMissingRefM, isMissingCitM]

theorem countKind_append (p : Message → Bool) (a b : List Message) :
    countKind p (a ++ b) = countKind p a + countKind p b := by
  simp [countKind, List.filter_append]

theorem countKind_singleton (p : Message → Bool) (m : Message) :
    countKind p [m] = if p m then 1 else 0 := by
  by_cases h : p m <;> simp [countKind, List.filter, h]

theorem messages_split (ms : List Message) (m : Message) (h : ms.getLast? = some m) :
    ms = ms.dropLast ++ [m] :=
  (List.dropLast_append_getLast? m (by rw [h]; rfl)).symm

theorem countKind_push (p : Message → Bool) (ms : List Message) (m : Message) :
    countKind p (ms ++ [m]) = countKind p ms + (if p m then 1 else 0) := by
  rw [countKind_append, countKind_singleton]

theorem countKind_replaceLast (p : Message → Bool) (ms : List Message) (m m2 : Message)
    (hk : p m2 = p m) (hsplit : ms = ms.dropLast ++ [m]) :
    countKind p (ms.dropLast ++ [m2]) = countKind p ms := by
  conv_rhs => rw [hsplit]
  rw [countKind_push, countKind_push, hk]

theorem countersMatch_push_error (r : BuildReport) (hr : countersMatch r) (i : MessageInfo) :
    countersMatch { r with errors := r.errors + 1,
                           messages := r.messages ++ [Message.error i] } := by
  obtain ⟨h1, h2, h3, h4, h5, h6⟩ := hr
  refine ⟨?_, ?_, ?_, ?_, ?_, ?_⟩ <;>
    simp [countKind_push, isErrorM, isWarningM, isBadboxM, isInfoM,
      isMissingRefM, isMissingCitM, h1, h2, h3, h4, h5, h6]

theorem countersMatch_push_warning (r : BuildReport) (hr : countersMatch r) (i : MessageInfo) :
    countersMatch { r with warnings := r.warnings + 1,
                           messages := r.messages ++ [Message.warning i] } := by
  obtain ⟨h1, h2, h3, h4, h5, h6⟩ := hr
  refine ⟨?_, ?_, ?_, ?_, ?_, ?_⟩ <;>
    simp [countKind_push, isErrorM, isWarningM, isBadboxM, isInfoM,
      isMissingRefM, isMissingCitM, h1, h2, h3, h4, h5, h6]

theorem countersMatch_push_badbox (r : BuildReport) (hr : countersMatch r) (i : MessageInfo) :
    countersMatch { r with badboxes := r.badboxes + 1,
                           messages := r.messages ++ [Message.badbox i] } := by
  obtain ⟨h1, h2, h3, h4, h5, h6⟩ := hr
  refine ⟨?_, ?_, ?_, ?_, ?_, ?_⟩ <;>
    simp [countKind_push, isErrorM, isWarningM, isBadboxM, isInfoM,
      isMissingRefM, isMissingCitM, h1, h2, h3, h4, h5, h6]

theorem countersMatch_push_info (r : BuildReport) (hr : countersMatch r) (i : MessageInfo) :
    countersMatch { r with info := r.info + 1,
                           messages := r.messages ++ [Message.info i] } := by
  obtain ⟨h1, h2, h3, h4, h5, h6⟩ := hr
  refine ⟨?_, ?_, ?_, ?_, ?_, ?_⟩ <;>
    simp [countKind_push, isErrorM, isWarningM, isBadboxM, isInfoM,
      isMissingRefM, isMissingCitM, h1, h2, h3, h4, h5, h6]

theorem countersMatch_push_mref (r : BuildReport) (hr : countersMatch r) (lab : List Char) :
    countersMatch { r with missing_references := r.missing_references + 1,
                           messages := r.messages ++ [Message.missingReference lab] } := by
  obtain ⟨h1, h2, h3, h4, h5, h6⟩ := hr
  refine ⟨?_, ?_, ?_, ?_, ?_, ?_⟩ <;>
    simp [countKind_push, isErrorM, isWarningM, isBadboxM, isInfoM,
      isMissingRefM, isMissingCitM, h1, h2, h3, h4, h5, h6]

theorem countersMatch_push_mcit (r : BuildReport) (hr : countersMatch r) (lab : List Char) :
    countersMatch { r with missing_citations := r.missing_citations + 1,
                           messages := r.messages ++ [Message.missingCitation lab] } := by
  obtain ⟨h1, h2, h3, h4, h5, h6⟩ := hr
  refine ⟨?_, ?_, ?_, ?_, ?_, ?_⟩ <;>
    simp [countKind_push, isErrorM, isWarningM, isBadboxM, isInfoM,
      isMissingRefM, isMissingCitM, h1, h2, h3, h4, h5, h6]

theorem process_badbox_shape (r : BuildReport) (m : BadboxCaps) (r2 : BuildReport)
    (h : process_badbox r m = some r2) :
    ∃ i, r2 = { r with badboxes := r.badboxes + 1,
                       messages := r.messages ++ [Message.badbox i] } := by
  unfold process_badbox at h
  repeat' split at h
  all_goals first
    | exact ⟨_, (Option.some.inj h).symm⟩
    | cases h

theorem process_error_shape (r : BuildReport) (e : ErrCaps) :
    ∃ i, process_error r e = { r with errors := r.errors + 1,
                                      messages := r.messages ++ [Message.error i] } := by
  cases e <;> exact ⟨_, rfl⟩

theorem process_warning_inv (r : BuildReport) (g : GenCaps) (hr : countersMatch r) :
    countersMatch (process_warning r g) := by
  unfold process_warning
  dsimp only
  split
  · split
    · split
      · exact countersMatch_push_mcit r hr _
      · split
        · exact countersMatch_push_mref r hr _
        · exact hr
    · exact countersMatch_push_warning r hr _
  · exact countersMatch_push_warning r hr _

theorem parse_line_inv (r : BuildReport) (line : List Char) (r2 : BuildReport)
    (h : parse_line r line = some r2) (hr : countersMatch r) : countersMatch r2 := by
  unfold parse_line at h
  split at h
  · obtain rfl : process_info r _ = r2 := Option.some.inj h
    exact countersMatch_push_info r hr _
  · split at h
    · obtain ⟨i, rfl⟩ := process_badbox_shape r _ r2 h
      exact countersMatch_push_badbox r hr i
    · split at h
      · obtain rfl : process_warning r _ = r2 := Option.some.inj h
        exact process_warning_inv r _ hr
      · split at h
        · obtain rfl : process_error r _ = r2 := Option.some.inj h
          obtain ⟨i, hsh⟩ := process_error_shape r _
          rw [hsh]
          exact countersMatch_push_error r hr i
        · obtain rfl : r = r2 := Option.some.inj h
          exact hr

theorem parseStep_inv (r : BuildReport) (line : List Char) (r2 : BuildReport)
    (h : parseStep r line = some r2) (hr : countersMatch r) : countersMatch r2 := by
  unfold parseStep at h
  cases hlast : r.messages.getLast? with
  | none =>
    simp only [hlast] at h
    exact parse_line_inv r line r2 h hr
  | some last =>
    simp only [hlast] at h
    cases hcomp : last.get_component_name with
    | none =>
      simp only [hcomp] at h
      exact parse_line_inv r line r2 h hr
    | some cmpt =>
      simp only [hcomp] at h
      by_cases hpre : (contPattern cmpt).isPrefixOf line = true
      · rw [if_pos hpre] at h
        cases hext : last.extend_message (trimStart (trimStartMatches (contPattern cmpt) line)) with
        | none => simp only [hext] at h; cases h
        | some last2 =>
          simp only [hext] at h
          obtain rfl : { r with messages := r.messages.dropLast ++ [last2] } = r2 :=
            Option.some.inj h
          have hsplit := messages_split r.messages last hlast
          obtain ⟨k1, k2, k3, k4, k5, k6⟩ := extend_message_kind last last2 _ hext
          obtain ⟨h1, h2, h3, h4, h5, h6⟩ := hr
          refine ⟨?_, ?_, ?_, ?_, ?_, ?_⟩
          · show r.errors = _
            rw [h1, countKind_replaceLast _ _ last last2 k1 hsplit]
          · show r.warnings = _
            rw [h2, countKind_replaceLast _ _ last last2 k2 hsplit]
          · show r.badboxes = _
            rw [h3, countKind_replaceLast _ _ last last2 k3 hsplit]
          · show r.info = _
            rw [h4, countKind_replaceLast _ _ last last2 k4 hsplit]
          · show r.missing_references = _
            rw [h5, countKind_replaceLast _ _ last last2 k5 hsplit]
          · show r.missing_citations = _
            rw [h6, countKind_replaceLast _ _ last last2 k6 hsplit]
      · rw [if_neg hpre] at h
        exact parse_line_inv r line r2 h hr

theorem parseLines_inv : ∀ (ls : List (List Char)) (r r2 : BuildReport),
    parseLines r ls = some r2 → countersMatch r → countersMatch r2 := by
  intro ls
  induction ls with
  | nil =>
    intro r r2 h hr
    obtain rfl : r = r2 := Option.some.inj h
    exact hr
  | cons l ls ih =>
    intro r r2 h hr
    unfold parseLines at h
    cases hstep : parseStep r l with
    | none => rw [hstep] at h; cases h
    | some rmid =>
      rw [hstep] at h
      exact ih rmid r2 h (parseStep_inv r l rmid hstep hr)

theorem matchLocation_shape (cs : List Char)
    (s e ln pg : Option (List Char)) (rest : List Char)
    (h : matchLocation cs = some (s, e, ln, pg, rest)) :
    (∃ a b, s = some a ∧ e = some b ∧ ln = none ∧ pg = none) ∨
    (∃ d, ln = some d ∧ s = none ∧ e = none ∧ pg = none) ∨
    (s = none ∧ e = none ∧ ln = none) := by
  unfold matchLocation at h
  rcases regexAlt_eq_some _ _ _ h with h1 | ⟨-, h1⟩
  · repeat' split at h1
    all_goals try cases h1
    all_goals rcases regexAlt_eq_some _ _ _ h1 with h2 | ⟨-, h2⟩
    · -- at lines
      unfold locLines at h2
      repeat' split at h2
      all_goals cases h2
      exact Or.inl ⟨_, _, rfl, rfl, rfl, rfl⟩
    · -- at line
      unfold locLine at h2
      repeat' split at h2
      all_goals cases h2
      exact Or.inr (Or.inl ⟨_, rfl, rfl, rfl, rfl⟩)
  · -- output active
    unfold locPage at h1
    repeat' split at h1
    all_goals cases h1
    all_goals exact Or.inr (Or.inr ⟨rfl, rfl, rfl⟩)

theorem badboxCaptures_analysis (l : List Char) (caps : BadboxCaps)
    (h : badboxCaptures l = some caps) :
    (caps.btype = "Over".toList ∨ caps.btype = "Under".toList) ∧
    ((∃ a b, caps.start_line = some a ∧ caps.end_line = some b ∧
        caps.line = none ∧ caps.page = none) ∨
     (∃ d, caps.line = some d ∧ caps.start_line = none ∧
        caps.end_line = none ∧ caps.page = none) ∨
     (caps.start_line = none ∧ caps.end_line = none ∧ caps.line = none)) := by
  unfold badboxCaptures at h
  cases hov : stripLit "Over".toList l with
  | some r1 =>
    simp only [hov] at h
    repeat' split at h
    all_goals cases h
    all_goals rename_i s e ln pg rest hloc
    all_goals exact ⟨Or.inl rfl, by simpa using matchLocation_shape _ _ _ _ _ _ hloc⟩
  | none =>
    simp only [hov] at h
    cases hun : stripLit "Under".toList l with
    | some r1 =>
      simp only [hun] at h
      repeat' split at h
      all_goals cases h
      all_goals rename_i s e ln pg rest hloc
      all_goals exact ⟨Or.inr rfl, by simpa using matchLocation_shape _ _ _ _ _ _ hloc⟩
    | none =>
      simp only [hun] at h
      cases h

theorem process_badbox_isSome (r : BuildReport) (m : BadboxCaps)
    (hov : m.btype = "Over".toList → m.size.isSome = true)
    (hun : m.btype = "Under".toList → m.badness.isSome = true)
    (hse : m.start_line.isSome = true → m.end_line.isSome = true) :
    (process_badbox r m).isSome = true := by
  unfold process_badbox
  repeat' split
  all_goals simp_all

theorem process_badbox_fields (r : BuildReport) (m : BadboxCaps) (r2 : BuildReport)
    (h : process_badbox r m = some r2) :
    ∃ i, r2 = { r with badboxes := r.badboxes + 1,
                       messages := r.messages ++ [Message.badbox i] } ∧
      i.full = m.full ∧
      (m.btype = "Over".toList → lookupD "by" i.details = m.size) ∧
      (m.btype = "Under".toList → lookupD "by" i.details = m.badness) ∧
      (∀ lv, m.line = some lv → lookupD "line" i.details = some lv ∧
        lookupD "start_line" i.details = none ∧ lookupD "end_line" i.details = none) ∧
      (m.line = none → m.start_line = none → lookupD "line" i.details = none ∧
        lookupD "start_line" i.details = none ∧ lookupD "end_line" i.details = none) ∧
      (∀ sv ev, m.line = none → m.start_line = some sv → m.end_line = some ev →
        lookupD "start_line" i.details = some sv ∧ lookupD "end_line" i.details = some ev ∧
        lookupD "line" i.details = none) ∧
      lookupD "page" i.details = m.page := by
  unfold process_badbox at h
  repeat' split at h
  all_goals try cases h
  all_goals refine ⟨_, rfl, rfl, ?_, ?_, ?_, ?_, ?_, ?_⟩
  all_goals simp_all [lookupD, insertD]

theorem stripLit_head_ne (c d : Char) (p cs : List Char) (h : c ≠ d) :
    stripLit (c :: p) (d :: cs) = none := by
  simp [stripLit, h]

theorem takeWhile_all {α} (p : α → Bool) :
    ∀ xs : List α, (∀ c ∈ xs, p c = true) →
      xs.takeWhile p = xs ∧ xs.dropWhile p = [] := by
  intro xs
  induction xs with
  | nil => intro _; exact ⟨rfl, rfl⟩
  | cons c cs ih =>
    intro h
    have hc : p c = true := h c (by simp)
    have := ih (fun x hx => h x (by simp [hx]))
    simp [List.takeWhile_cons, List.dropWhile_cons, hc, this.1, this.2]

theorem takeWhile_stop {α} (p : α → Bool) :
    ∀ (xs : List α) (y : α) (ys : List α), (∀ c ∈ xs, p c = true) → p y = false →
      (xs ++ y :: ys).takeWhile p = xs ∧ (xs ++ y :: ys).dropWhile p = y :: ys := by
  intro xs
  induction xs with
  | nil =>
    intro y ys _ hy
    simp [List.takeWhile_cons, List.dropWhile_cons, hy]
  | cons c cs ih =>
    intro y ys h hy
    have hc : p c = true := h c (by simp)
    have := ih y ys (fun x hx => h x (by simp [hx])) hy
    simp [List.takeWhile_cons, List.dropWhile_cons, hc, this.1, this.2]

theorem locLines_eq (l1 l2 : List Char)
    (h1 : l1 ≠ []) (hd1 : ∀ c ∈ l1, Char.isDigit c = true)
    (h2 : l2 ≠ []) (hd2 : ∀ c ∈ l2, Char.isDigit c = true) :
    locLines ("at lines ".toList ++ (l1 ++ ('-' :: '-' :: l2))) =
      some (some l1, some l2, none, none, []) := by
  obtain ⟨c1, l1t, rfl⟩ := List.exists_cons_of_ne_nil h1
  obtain ⟨c2, l2t, rfl⟩ := List.exists_cons_of_ne_nil h2
  have htw1 := takeWhile_stop Char.isDigit (c1 :: l1t) '-' ('-' :: c2 :: l2t) hd1 (by decide)
  have htw2 := takeWhile_all Char.isDigit (c2 :: l2t) hd2
  unfold locLines
  simp only [stripLit_append]
  simp only [htw1.1, htw1.2]
  simp only [show "--".toList = ['-', '-'] from rfl, stripLit, reduceIte]
  simp only [htw2.1, htw2.2]

theorem matchLocation_eq (l1 l2 : List Char)
    (h1 : l1 ≠ []) (hd1 : ∀ c ∈ l1, Char.isDigit c = true)
    (h2 : l2 ≠ []) (hd2 : ∀ c ∈ l2, Char.isDigit c = true) :
    matchLocation ("in paragraph".toList ++
        (' ' :: ("at lines ".toList ++ (l1 ++ ('-' :: '-' :: l2))))) =
      some (some l1, some l2, none, none, []) := by
  unfold matchLocation
  simp only [stripLit_append, regexAlt]
  rw [locLines_eq l1 l2 h1 hd1 h2 hd2]

theorem matchMeasure_eq (d f w : List Char) (y : Char) (ys : List Char)
    (hd : d ≠ []) (hdd : ∀ c ∈ d, Char.isDigit c = true)
    (hf : f ≠ []) (hfd : ∀ c ∈ f, Char.isDigit c = true)
    (hw : w ≠ []) (hww : ∀ c ∈ w, isWordChar c = true)
    (hy : isWordChar y = false) :
    matchMeasure (d ++ ('.' :: (f ++ ("pt too ".toList ++ (w ++ y :: ys))))) =
      some (none, some (d ++ ('.' :: f) ++ "pt".toList), y :: ys) := by
  obtain ⟨dc, dt, rfl⟩ := List.exists_cons_of_ne_nil hd
  obtain ⟨fc, ft, rfl⟩ := List.exists_cons_of_ne_nil hf
  have hb : ('b' : Char) ≠ dc := by
    intro he
    have hcd := hdd dc (by simp)
    rw [← he] at hcd
    exact absurd hcd (by decide)
  have htw1 := takeWhile_stop Char.isDigit (dc :: dt) '.'
      ((fc :: ft) ++ ('p' :: ("t too ".toList ++ (w ++ y :: ys)))) hdd (by decide)
  have htw2 := takeWhile_stop Char.isDigit (fc :: ft) 'p'
      ("t too ".toList ++ (w ++ y :: ys)) hfd (by decide)
  have htw3 := takeWhile_stop isWordChar w y ys hww hy
  unfold matchMeasure
  rw [show "badness ".toList = 'b' :: "adness ".toList from rfl,
      show "pt too ".toList = 'p' :: "t too ".toList from rfl]
  simp only [List.cons_append, List.append_assoc] at htw1 htw2 htw3 ⊢
  rw [stripLit_head_ne 'b' dc _ _ hb]
  simp only [regexAlt, htw1.1, htw1.2, htw2.1, htw2.2, htw3.1, htw3.2,
    stripLit, stripLit_append, hw, reduceIte, reduceCtorEq,
    List.cons_append, List.append_assoc, List.nil_append, List.append_nil]
  simp [htw3.1, htw3.2, hw]


theorem badboxCaptures_overfull (d f l1 l2 : List Char)
    (hd : d ≠ []) (hdd : ∀ c ∈ d, Char.isDigit c = true)
    (hf : f ≠ []) (hfd : ∀ c ∈ f, Char.isDigit c = true)
    (h1 : l1 ≠ []) (hd1 : ∀ c ∈ l1, Char.isDigit c = true)
    (h2 : l2 ≠ []) (hd2 : ∀ c ∈ l2, Char.isDigit c = true) :
    badboxCaptures ("Overfull \\hbox (".toList ++ d ++ '.' :: f ++
        "pt too wide) in paragraph at lines ".toList ++ l1 ++ "--".toList ++ l2) =
      some { full := "Overfull \\hbox (".toList ++ d ++ '.' :: f ++
               "pt too wide) in paragraph at lines ".toList ++ l1 ++ "--".toList ++ l2,
             btype := "Over".toList, direction := ['h'],
             badness := none, size := some (d ++ ('.' :: f) ++ "pt".toList),
             start_line := some l1, end_line := some l2, line := none, page := none } := by
  rw [show "Overfull \\hbox (".toList =
        "Over".toList ++ ("full \\".toList ++ ('h' :: "box (".toList)) from rfl,
      show "pt too wide) in paragraph at lines ".toList =
        "pt too ".toList ++ ("wide".toList ++ (')' :: (' ' ::
          ("in paragraph".toList ++ (' ' :: "at lines ".toList))))) from rfl,
      show "--".toList = ['-', '-'] from rfl]
  simp only [List.append_assoc, List.cons_append, List.nil_append]
  unfold badboxCaptures
  simp only [stripLit_append, reduceIte]
  rw [matchMeasure_eq d f "wide".toList ')' _ hd hdd hf hfd (by decide) (by decide) (by decide)]
  simp only [show ") ".toList = [')', ' '] from rfl, stripLit, reduceIte]
  rw [matchLocation_eq l1 l2 h1 hd1 h2 hd2]
  simp [List.take_length]


theorem matchType_head (c : Char) (cs : List Char)
    (h1 : c ≠ 'L') (h2 : c ≠ 'p') (h3 : c ≠ 'P') (h4 : c ≠ 'C') :
    matchType (c :: cs) = none := by
  unfold matchType
  rw [show "LaTeX".toList = 'L' :: "aTeX".toList from rfl,
      show "pdfTeX".toList = 'p' :: "dfTeX".toList from rfl,
      show "Package".toList = 'P' :: "ackage".toList from rfl,
      show "Class".toList = 'C' :: "lass".toList from rfl,
      stripLit_head_ne _ _ _ _ (Ne.symm h1), stripLit_head_ne _ _ _ _ (Ne.symm h2),
      stripLit_head_ne _ _ _ _ (Ne.symm h3), stripLit_head_ne _ _ _ _ (Ne.symm h4)]

theorem infoCaptures_none (line : List Char) (h : matchType line = none) :
    infoCaptures line = none := by
  unfold infoCaptures
  rw [h]

theorem warningCaptures_none (line : List Char) (h : matchType line = none) :
    warningCaptures line = none := by
  unfold warningCaptures
  rw [h]

theorem errorCaptures_head (c : Char) (cs : List Char) (h : c ≠ '!') :
    errorCaptures (c :: cs) = none := by
  unfold errorCaptures
  rw [show "! ".toList = '!' :: [' '] from rfl, stripLit_head_ne _ _ _ _ (Ne.symm h)]

theorem missingRefCaptures_kind (msg : List Char) (rc : RefCaps)
    (h : missingRefCaptures msg = some rc) :
    rc.kind = "Citation".toList ∨ rc.kind = "Reference".toList := by
  unfold missingRefCaptures at h
  cases hc : stripLit "Citation".toList msg with
  | some r1 =>
    simp only [hc] at h
    left
    repeat' split at h
    all_goals try cases h
    all_goals rfl
  | none =>
    simp only [hc] at h
    cases hr : stripLit "Reference".toList msg with
    | some r1 =>
      simp only [hr] at h
      right
      repeat' split at h
      all_goals try cases h
      all_goals rfl
    | none => simp only [hr] at h; cases h


theorem process_warning_eq (r : BuildReport) (g : GenCaps) :
    process_warning r g =
      match missingRefCaptures g.message with
      | some rc =>
        if rc.kind = "Citation".toList then process_missing_citation r rc.label
        else if rc.kind = "Reference".toList then process_missing_reference r rc.label
        else r
      | none => { r with warnings := r.warnings + 1,
                         messages := r.messages ++ [Message.warning (process_generic g)] } := by
  unfold process_warning
  simp only [process_generic_message]

theorem badboxCaptures_head (c : Char) (cs : List Char) (h1 : c ≠ 'O') (h2 : c ≠ 'U') :
    badboxCaptures (c :: cs) = none := by
  unfold badboxCaptures
  rw [show "Over".toList = 'O' :: "ver".toList from rfl,
      show "Under".toList = 'U' :: "nder".toList from rfl,
      stripLit_head_ne _ _ _ _ (Ne.symm h1), stripLit_head_ne _ _ _ _ (Ne.symm h2)]

theorem errorCaptures_bare (rest : List Char) (hmt : matchType rest = none) :
    errorCaptures ('!' :: ' ' :: rest) =
      some (ErrCaps.bare ('!' :: ' ' :: rest.takeWhile (fun c => c ≠ '\n'))
        (rest.takeWhile (fun c => c ≠ '\n'))) := by
  unfold errorCaptures
  rw [show "! ".toList = '!' :: [' '] from rfl]
  simp only [stripLit, reduceIte, hmt]
  have hlen : (rest.takeWhile (fun c => c ≠ '\n')).length +
      (rest.dropWhile (fun c => c ≠ '\n')).length = rest.length := by
    rw [← List.length_append, List.takeWhile_append_dropWhile]
  have htake2 : ∀ n, n = (rest.takeWhile (fun c => c ≠ '\n')).length →
      rest.take n = rest.takeWhile (fun c => c ≠ '\n') := by
    intro n hn
    conv_lhs => rw [← List.takeWhile_append_dropWhile (p := fun c => c ≠ '\n') (l := rest)]
    exact List.take_left' hn.symm
  have harith : ('!' :: ' ' :: rest).length - (rest.dropWhile (fun c => c ≠ '\n')).length =
      (rest.takeWhile (fun c => c ≠ '\n')).length + 2 := by
    simp only [List.length_cons]
    omega
  rw [harith, show ∀ n, ('!' :: ' ' :: rest).take (n + 2) = '!' :: ' ' :: rest.take n
        from fun n => rfl, htake2 _ rfl]

theorem parseStep_merge (r : BuildReport) (last : Message) (cmpt line : List Char)
    (hlast : r.messages.getLast? = some last)
    (hcomp : last.get_component_name = some cmpt)
    (hpre : (contPattern cmpt).isPrefixOf line = true) :
    parseStep r line =
      (last.extend_message (trimStart (trimStartMatches (contPattern cmpt) line))).map
        (fun last2 => { r with messages := r.messages.dropLast ++ [last2] }) := by
  unfold parseStep
  simp only [hlast, hcomp, hpre, reduceIte]
  cases last.extend_message (trimStart (trimStartMatches (contPattern cmpt) line)) <;> rfl

theorem dropWhile_getLast {α} (p : α → Bool) :
    ∀ t : List α, t.dropWhile p ≠ [] → (t.dropWhile p).getLast? = t.getLast? := by
  intro t
  induction t with
  | nil => intro h; exact absurd rfl h
  | cons c rest ih =>
    intro h
    by_cases hc : p c = true
    · rw [List.dropWhile_cons, if_pos hc] at h ⊢
      have hrest : rest ≠ [] := by
        intro he
        subst he
        exact h rfl
      rw [ih h]
      cases rest with
      | nil => exact absurd rfl hrest
      | cons b bs => rw [List.getLast?_cons_cons]
    · rw [List.dropWhile_cons, if_neg hc]

theorem messages_length_concat (r : BuildReport) (last last2 : Message)
    (hlast : r.messages.getLast? = some last) :
    (r.messages.dropLast ++ [last2]).length = r.messages.length := by
  have hne : r.messages ≠ [] := by
    intro he
    rw [he] at hlast
    cases hlast
  have hpos : 0 < r.messages.length := List.length_pos.mpr hne
  rw [List.length_append, List.length_dropLast]
  simp
  omega

/-! ## Claim theorems -/

/-- C1: for every input line, the classifier tries the recognizers in the fixed
priority order Info, then Badbox, then Warning, then Error, stops at the first
recognizer that matches, and a line matching none of the recognizers produces
no record and leaves the report unchanged with no error. -/
theorem C1_classifier_priority (r : BuildReport) (line : List Char) :
    (∀ m, infoCaptures line = some m → parse_line r line = some (process_info r m)) ∧
    (infoCaptures line = none →
      ∀ m, badboxCaptures line = some m → parse_line r line = process_badbox r m) ∧
    (infoCaptures line = none → badboxCaptures line = none →
      ∀ m, warningCaptures line = some m → parse_line r line = some (process_warning r m)) ∧
    (infoCaptures line = none → badboxCaptures line = none → warningCaptures line = none →
      ∀ m, errorCaptures line = some m → parse_line r line = some (process_error r m)) ∧
    (infoCaptures line = none → badboxCaptures line = none → warningCaptures line = none →
      errorCaptures line = none → parse_line r line = some r) := by
  refine ⟨?_, ?_, ?_, ?_, ?_⟩
  · intro m h1; simp [parse_line, h1]
  · intro h1 m h2; simp [parse_line, h1, h2]
  · intro h1 h2 m h3; simp [parse_line, h1, h2, h3]
  · intro h1 h2 h3 m h4; simp [parse_line, h1, h2, h3, h4]
  · intro h1 h2 h3 h4; simp [parse_line, h1, h2, h3, h4]

/-- Witness for C1 at a line matching no recognizer. -/
theorem C1_classifier_priority_witness :
    parse_line BuildReport.new ['x'] = some BuildReport.new :=
  (C1_classifier_priority BuildReport.new ['x']).2.2.2.2 rfl rfl rfl rfl

/-- C8: a Badbox (or MissingCitation / MissingReference) record reports no
component name, so whenever it is the most recently appended diagnostic the
merger declines and the next line falls through to normal classification. -/
theorem C8_badbox_never_merges (i : MessageInfo) (lab : List Char)
    (r : BuildReport) (line : List Char) :
    (Message.badbox i).get_component_name = none ∧
    (Message.missingCitation lab).get_component_name = none ∧
    (Message.missingReference lab).get_component_name = none ∧
    (r.messages.getLast? = some (Message.badbox i) → parseStep r line = parse_line r line) ∧
    (r.messages.getLast? = some (Message.missingCitation lab) →
      parseStep r line = parse_line r line) ∧
    (r.messages.getLast? = some (Message.missingReference lab) →
      parseStep r line = parse_line r line) := by
  refine ⟨rfl, rfl, rfl, ?_, ?_, ?_⟩ <;>
    · intro h
      simp [parseStep, h, Message.get_component_name]

/-- Witness for C8 at a report whose last message is a badbox. -/
theorem C8_badbox_never_merges_witness :
    parseStep { errors := 0, warnings := 0, badboxes := 1, info := 0,
                missing_references := 0, missing_citations := 0,
                messages := [Message.badbox { full := [], details := [], context_lines := [] }] }
        ['x'] =
      parse_line { errors := 0, warnings := 0, badboxes := 1, info := 0,
                   missing_references := 0, missing_citations := 0,
                   messages := [Message.badbox { full := [], details := [], context_lines := [] }] }
        ['x'] :=
  (C8_badbox_never_merges { full := [], details := [], context_lines := [] } [] _ ['x']).2.2.2.1 rfl

/-- C9: parsing is deterministic; parsing the same text twice from scratch
yields identical reports. -/
theorem C9_deterministic (input : List Char) :
    parse_log input = parse_log input ∧
    ∀ r1 r2 : BuildReport, parse_log input = some r1 → parse_log input = some r2 → r1 = r2 := by
  refine ⟨rfl, ?_⟩
  intro r1 r2 h1 h2
  rw [h1] at h2
  exact Option.some.inj h2

/-- Witness for C9 on the empty log. -/
theorem C9_deterministic_witness : BuildReport.new = BuildReport.new :=
  (C9_deterministic []).2 BuildReport.new BuildReport.new rfl rfl

/-- C4: the report starts with all counters zero and an empty message list,
every parse step preserves the property that each of the six counters equals
the number of messages of its variant (MissingCitation / MissingReference are
counted by their own counters and not by warnings), and every completed pass
therefore satisfies it. -/
theorem C4_counter_invariant :
    (BuildReport.new = { errors := 0, warnings := 0, badboxes := 0, info := 0,
                         missing_references := 0, missing_citations := 0, messages := [] } ∧
      countersMatch BuildReport.new) ∧
    (∀ (r : BuildReport) (line : List Char) (r2 : BuildReport),
      parseStep r line = some r2 → countersMatch r → countersMatch r2) ∧
    (∀ (input : List Char) (r : BuildReport), parse_log input = some r → countersMatch r) := by
  refine ⟨⟨rfl, rfl, rfl, rfl, rfl, rfl, rfl⟩, parseStep_inv, ?_⟩
  intro input r h
  exact parseLines_inv _ _ _ h ⟨rfl, rfl, rfl, rfl, rfl, rfl⟩

/-- Witness for C4 on the report produced from the one-line log "! x". -/
theorem C4_counter_invariant_witness :
    countersMatch { errors := 1, warnings := 0, badboxes := 0, info := 0,
                    missing_references := 0, missing_citations := 0,
                    messages := [Message.error { full := "! x".toList,
                                                 details := [("message", ['x'])],
                                                 context_lines := [] }] } :=
  C4_counter_invariant.2.2 "! x".toList _ rfl

/-- C5 counterexample: the BADBOX recognizer matches a line whose box-type
keyword Over arrives with the badness measure branch (group 4 absent), and
processing that line aborts (the unwrap panics), so the fatal case is
reachable. -/
theorem C5_counterexample :
    badboxCaptures "Overfull \\hbox (badness 1) detected at line 1".toList =
      some { full := "Overfull \\hbox (badness 1) detected at line 1".toList,
             btype := "Over".toList, direction := ['h'],
             badness := some ['1'], size := none,
             start_line := none, end_line := none, line := some ['1'], page := none } ∧
    parse_line BuildReport.new "Overfull \\hbox (badness 1) detected at line 1".toList = none :=
  ⟨rfl, rfl⟩

/-- C5 amended: processing a line aborts only through a Badbox match whose
box-type keyword disagrees with the matched measure alternative.  Whenever
every Badbox match on the line has its point-size group when the type is Over
and its badness group when the type is Under, processing the line succeeds;
and the ranged start-line group is present only together with the end-line
group, so that unwrap is always safe. -/
theorem C5_amended_no_abort (r : BuildReport) (line : List Char) :
    ((∀ caps, badboxCaptures line = some caps →
        (caps.btype = "Over".toList → caps.size.isSome = true) ∧
        (caps.btype = "Under".toList → caps.badness.isSome = true)) →
      (parse_line r line).isSome = true) ∧
    (∀ caps, badboxCaptures line = some caps →
      caps.start_line.isSome = true → caps.end_line.isSome = true) := by
  constructor
  · intro hcaps
    unfold parse_line
    split
    · simp
    · split
      · rename_i m hm
        refine process_badbox_isSome r m (hcaps m hm).1 (hcaps m hm).2 ?_
        intro hs
        rcases (badboxCaptures_analysis line m hm).2 with
            ⟨a, b, h1, h2, -, -⟩ | ⟨d, -, h1, -, -⟩ | ⟨h1, h2, -⟩
        · simp [h2]
        · rw [h1] at hs; cases hs
        · rw [h1] at hs; cases hs
      · split
        · simp
        · split <;> simp
  · intro caps hm hs
    rcases (badboxCaptures_analysis line caps hm).2 with
        ⟨a, b, h1, h2, -, -⟩ | ⟨d, -, h1, -, -⟩ | ⟨h1, h2, -⟩
    · simp [h2]
    · rw [h1] at hs; cases hs
    · rw [h1] at hs; cases hs

/-- Witness for the amended C5 on a harmless line. -/
theorem C5_amended_no_abort_witness : (parse_line BuildReport.new ['x']).isSome = true := by
  refine (C5_amended_no_abort BuildReport.new ['x']).1 ?_
  intro caps h
  have hnone : badboxCaptures ['x'] = none := rfl
  rw [hnone] at h
  exact Option.noConfusion h

/-- C6: for every line matched by the Badbox recognizer that is extracted
successfully, the record's by field holds the overfull point-size text when
the type is Over and the underfull badness when the type is Under; line is set
(and start_line / end_line are not) for single-line reports, start_line and
end_line are set together for ranged reports, and page is set only for the
output-active form.  In particular a line Overfull \x5chbox (D.Fpt too wide)
in paragraph at lines L1--L2 produces exactly one Badbox diagnostic with
start_line = L1 and end_line = L2 and no other diagnostics. -/
theorem C6_badbox_extraction :
    (∀ (l : List Char) (caps : BadboxCaps) (r r2 : BuildReport),
      badboxCaptures l = some caps → process_badbox r caps = some r2 →
      ∃ i, r2 = { r with badboxes := r.badboxes + 1,
                         messages := r.messages ++ [Message.badbox i] } ∧
        (caps.btype = "Over".toList → lookupD "by" i.details = caps.size) ∧
        (caps.btype = "Under".toList → lookupD "by" i.details = caps.badness) ∧
        (∀ lv, caps.line = some lv → lookupD "line" i.details = some lv ∧
          lookupD "start_line" i.details = none ∧ lookupD "end_line" i.details = none) ∧
        (∀ sv, caps.start_line = some sv → caps.line = none ∧
          ∃ ev, caps.end_line = some ev ∧ lookupD "start_line" i.details = some sv ∧
            lookupD "end_line" i.details = some ev ∧ lookupD "line" i.details = none) ∧
        lookupD "page" i.details = caps.page ∧
        (caps.page.isSome = true → caps.line = none ∧ caps.start_line = none ∧
          caps.end_line = none)) ∧
    (∀ d f l1 l2 : List Char,
      d ≠ [] → (∀ c ∈ d, Char.isDigit c = true) →
      f ≠ [] → (∀ c ∈ f, Char.isDigit c = true) →
      l1 ≠ [] → (∀ c ∈ l1, Char.isDigit c = true) →
      l2 ≠ [] → (∀ c ∈ l2, Char.isDigit c = true) →
      ∃ i, parse_line BuildReport.new ("Overfull \\hbox (".toList ++ d ++ '.' :: f ++
          "pt too wide) in paragraph at lines ".toList ++ l1 ++ "--".toList ++ l2) =
        some { errors := 0, warnings := 0, badboxes := 1, info := 0,
               missing_references := 0, missing_citations := 0,
               messages := [Message.badbox i] } ∧
        lookupD "start_line" i.details = some l1 ∧
        lookupD "end_line" i.details = some l2 ∧
        lookupD "by" i.details = some (d ++ ('.' :: f) ++ "pt".toList)) := by
  constructor
  · intro l caps r r2 hbb hpb
    obtain ⟨i, hr2, hfull, hov, hun, hln, hnn, hrng, hpg⟩ := process_badbox_fields r caps r2 hpb
    obtain ⟨hbt, hloc⟩ := badboxCaptures_analysis l caps hbb
    refine ⟨i, hr2, hov, hun, hln, ?_, hpg, ?_⟩
    · intro sv hsv
      rcases hloc with ⟨a, b, ha, hb, hl0, hp0⟩ | ⟨dd, hd0, hs0, he0, hp0⟩ | ⟨hs0, he0, hl0⟩
      · rw [ha] at hsv
        obtain rfl := Option.some.inj hsv
        obtain ⟨hx, hy, hz⟩ := hrng a b hl0 ha hb
        exact ⟨hl0, b, hb, hx, hy, hz⟩
      · rw [hs0] at hsv; cases hsv
      · rw [hs0] at hsv; cases hsv
    · intro hps
      rcases hloc with ⟨a, b, ha, hb, hl0, hp0⟩ | ⟨dd, hd0, hs0, he0, hp0⟩ | ⟨hs0, he0, hl0⟩
      · rw [hp0] at hps; cases hps
      · rw [hp0] at hps; cases hps
      · exact ⟨hl0, hs0, he0⟩
  · intro d f l1 l2 hd hdd hf hfd h1 hd1 h2 hd2
    have hbb := badboxCaptures_overfull d f l1 l2 hd hdd hf hfd h1 hd1 h2 hd2
    have hOL : "Overfull \\hbox (".toList ++ d ++ '.' :: f ++
        "pt too wide) in paragraph at lines ".toList ++ l1 ++ "--".toList ++ l2 =
        'O' :: ("verfull \\hbox (".toList ++ (d ++ '.' :: f ++
          "pt too wide) in paragraph at lines ".toList ++ l1 ++ "--".toList ++ l2)) := by
      rw [show "Overfull \\hbox (".toList = 'O' :: "verfull \\hbox (".toList from rfl]
      simp [List.cons_append, List.append_assoc]
    have hinfo : infoCaptures ("Overfull \\hbox (".toList ++ d ++ '.' :: f ++
        "pt too wide) in paragraph at lines ".toList ++ l1 ++ "--".toList ++ l2) = none := by
      rw [hOL]
      exact infoCaptures_none _
        (matchType_head 'O' _ (by decide) (by decide) (by decide) (by decide))
    simp only [parse_line, hinfo, hbb]
    simp only [process_badbox, reduceIte, insertD, reduceCtorEq]
    exact ⟨_, rfl, by simp [lookupD, insertD], by simp [lookupD, insertD],
      by simp [lookupD, insertD]⟩

/-- Witness for C6 at concrete digits 5.7, lines 3 and 9. -/
theorem C6_badbox_extraction_witness :
    ∃ i, parse_line BuildReport.new ("Overfull \\hbox (".toList ++ ['5'] ++ '.' :: ['7'] ++
        "pt too wide) in paragraph at lines ".toList ++ ['3'] ++ "--".toList ++ ['9']) =
      some { errors := 0, warnings := 0, badboxes := 1, info := 0,
             missing_references := 0, missing_citations := 0,
             messages := [Message.badbox i] } ∧
      lookupD "start_line" i.details = some ['3'] ∧
      lookupD "end_line" i.details = some ['9'] ∧
      lookupD "by" i.details = some (['5'] ++ ('.' :: ['7']) ++ "pt".toList) :=
  C6_badbox_extraction.2 ['5'] ['7'] ['3'] ['9'] (by decide) (by decide) (by decide)
    (by decide) (by decide) (by decide) (by decide) (by decide)

/-- C2: a Warning whose extracted message matches the missing-reference
pattern is discarded and replaced by exactly one MissingCitation or
MissingReference diagnostic chosen by the captured keyword, carrying only the
captured label, incrementing the specialized counter and not warnings; a
non-matching Warning is kept and warnings increments; Error and Info
processing never recodes; and the concrete reference-warning line yields
missing_references = 1, warnings = 0, and a MissingReference with label X. -/
theorem C2_warning_recoding (r : BuildReport) (g : GenCaps) :
    (∀ rc, missingRefCaptures g.message = some rc →
      (rc.kind = "Citation".toList ∨ rc.kind = "Reference".toList) ∧
      (rc.kind = "Citation".toList →
        process_warning r g = { r with
          missing_citations := r.missing_citations + 1,
          messages := r.messages ++ [Message.missingCitation rc.label] }) ∧
      (rc.kind = "Reference".toList →
        process_warning r g = { r with
          missing_references := r.missing_references + 1,
          messages := r.messages ++ [Message.missingReference rc.label] })) ∧
    (missingRefCaptures g.message = none →
      process_warning r g = { r with
        warnings := r.warnings + 1,
        messages := r.messages ++ [Message.warning (process_generic g)] }) ∧
    (∀ e : ErrCaps, ∃ i, process_error r e =
      { r with errors := r.errors + 1, messages := r.messages ++ [Message.error i] }) ∧
    (process_info r g = { r with
      info := r.info + 1,
      messages := r.messages ++ [Message.info (process_generic g)] }) ∧
    (parse_log "LaTeX Warning: Reference `X\x27 on page 1 undefined on input line 7.".toList =
      some { errors := 0, warnings := 0, badboxes := 0, info := 0,
             missing_references := 1, missing_citations := 0,
             messages := [Message.missingReference ['X']] }) := by
  refine ⟨?_, ?_, process_error_shape r, rfl, by rfl⟩
  · intro rc hrc
    refine ⟨missingRefCaptures_kind _ _ hrc, ?_, ?_⟩
    · intro hk
      rw [process_warning_eq, hrc]
      simp only [hk, reduceIte]
      rfl
    · intro hk
      rw [process_warning_eq, hrc]
      simp only [hk, reduceIte]
      rfl
  · intro hnone
    rw [process_warning_eq, hnone]


theorem C2_warning_recoding_witness :
    process_warning BuildReport.new
        { full := "LaTeX Warning: Reference `X\x27 on page 1 undefined on input line 7.".toList,
          ctype := "LaTeX".toList, name := none, extra := none,
          message := "Reference `X\x27 on page 1 undefined on input line 7.".toList } =
      { errors := 0, warnings := 0, badboxes := 0, info := 0,
        missing_references := 1, missing_citations := 0,
        messages := [Message.missingReference ['X']] } :=
  ((C2_warning_recoding BuildReport.new
      { full := "LaTeX Warning: Reference `X\x27 on page 1 undefined on input line 7.".toList,
        ctype := "LaTeX".toList, name := none, extra := none,
        message := "Reference `X\x27 on page 1 undefined on input line 7.".toList }).1
    { kind := "Reference".toList, label := ['X'] } rfl).2.2 rfl

/-- C7: a bare error line "! message" with no named component keyword
produces exactly one Error diagnostic whose message equals the text after
"! " verbatim (the physical line up to its newline), and no type field is
set on that record. -/
theorem C7_bare_error (r : BuildReport) (rest : List Char)
    (hmt : matchType rest = none) :
    parse_line r ('!' :: ' ' :: rest) =
      some { r with errors := r.errors + 1,
                    messages := r.messages ++
                      [Message.error { full := '!' :: ' ' :: rest.takeWhile (fun c => c ≠ '\n'),
                                       details := [("message", rest.takeWhile (fun c => c ≠ '\n'))],
                                       context_lines := [] }] } ∧
    lookupD "type" [(("message" : String), rest.takeWhile (fun c => c ≠ '\n'))] = none ∧
    ('\n' ∉ rest → rest.takeWhile (fun c => c ≠ '\n') = rest) := by
  refine ⟨?_, rfl, ?_⟩
  · simp only [parse_line,
      infoCaptures_none _ (matchType_head '!' _ (by decide) (by decide) (by decide) (by decide)),
      badboxCaptures_head '!' _ (by decide) (by decide),
      warningCaptures_none _ (matchType_head '!' _ (by decide) (by decide) (by decide) (by decide)),
      errorCaptures_bare rest hmt]
    rfl
  · intro hnin
    refine (takeWhile_all _ rest ?_).1
    intro c hc
    have hne : c ≠ '\n' := fun he => hnin (by rwa [he] at hc)
    simp [hne]

theorem C7_bare_error_witness :
    parse_line BuildReport.new ('!' :: ' ' :: "Undefined control sequence.".toList) =
      some { errors := 1, warnings := 0, badboxes := 0, info := 0,
             missing_references := 0, missing_citations := 0,
             messages := [Message.error { full := "! Undefined control sequence.".toList,
                                          details := [("message", "Undefined control sequence.".toList)],
                                          context_lines := [] }] } :=
  (C7_bare_error BuildReport.new "Undefined control sequence.".toList rfl).1

/-- C3: when the most recently appended diagnostic is an Error, Warning or
Info record carrying a component / package / class name and the next line
starts with "(name) ", the stripped remainder (prefix removed, leading
whitespace trimmed) is appended to that record's message by plain
concatenation with no separator, no new diagnostic is created, no counter
changes, and classification is skipped; hence a Warning / Error / Info line
followed by such continuation lines yields a single diagnostic whose message
is the original message with all continuation texts appended in order. -/
theorem C3_continuation_merge :
    (∀ (r : BuildReport) (last : Message) (cmpt line cur : List Char),
      r.messages.getLast? = some last →
      mergeTarget last cmpt cur →
      (contPattern cmpt).isPrefixOf line = true →
      ∃ last2,
        last.extend_message (trimStart (trimStartMatches (contPattern cmpt) line)) = some last2 ∧
        parseStep r line = some { r with messages := r.messages.dropLast ++ [last2] } ∧
        mergeTarget last2 cmpt (cur ++ trimStart (trimStartMatches (contPattern cmpt) line)) ∧
        (r.messages.dropLast ++ [last2]).length = r.messages.length) ∧
    (∀ (cmpt : List Char) (ts : List (List Char)) (r : BuildReport) (last : Message)
        (cur : List Char),
      r.messages.getLast? = some last →
      mergeTarget last cmpt cur →
      (∀ t ∈ ts, (contPattern cmpt).isPrefixOf t = false) →
      ∃ r2, parseLines r (ts.map (fun t => contPattern cmpt ++ t)) = some r2 ∧
        r2.errors = r.errors ∧ r2.warnings = r.warnings ∧ r2.badboxes = r.badboxes ∧
        r2.info = r.info ∧ r2.missing_references = r.missing_references ∧
        r2.missing_citations = r.missing_citations ∧
        r2.messages.length = r.messages.length ∧
        ∃ last2, r2.messages.getLast? = some last2 ∧
          mergeTarget last2 cmpt (cur ++ (ts.map trimStart).flatten)) := by
  have hstep : ∀ (r : BuildReport) (last : Message) (cmpt line cur : List Char),
      r.messages.getLast? = some last →
      mergeTarget last cmpt cur →
      (contPattern cmpt).isPrefixOf line = true →
      ∃ last2,
        last.extend_message (trimStart (trimStartMatches (contPattern cmpt) line)) = some last2 ∧
        parseStep r line = some { r with messages := r.messages.dropLast ++ [last2] } ∧
        mergeTarget last2 cmpt (cur ++ trimStart (trimStartMatches (contPattern cmpt) line)) ∧
        (r.messages.dropLast ++ [last2]).length = r.messages.length := by
    intro r last cmpt line cur hlast htarget hpre
    obtain ⟨last2, hext, htarget2⟩ :=
      mergeTarget_extend last cmpt cur (trimStart (trimStartMatches (contPattern cmpt) line)) htarget
    refine ⟨last2, hext, ?_, htarget2, messages_length_concat r last last2 hlast⟩
    rw [parseStep_merge r last cmpt line hlast htarget.1 hpre, hext]
    rfl
  refine ⟨hstep, ?_⟩
  intro cmpt ts
  induction ts with
  | nil =>
    intro r last cur hlast htarget hts
    exact ⟨r, rfl, rfl, rfl, rfl, rfl, rfl, rfl, rfl, last, hlast, by simpa using htarget⟩
  | cons t ts ih =>
    intro r last cur hlast htarget hts
    have hpre : (contPattern cmpt).isPrefixOf (contPattern cmpt ++ t) = true :=
      isPrefixOf_append _ _
    have hstrip : trimStartMatches (contPattern cmpt) (contPattern cmpt ++ t) = t := by
      rw [trimStartMatches_stripOnce _ _ (by simp [contPattern]),
          trimStartMatches_of_not _ _ (hts t (by simp))]
    obtain ⟨last2, hext, hstep2, htarget2, hlen2⟩ :=
      hstep r last cmpt (contPattern cmpt ++ t) cur hlast htarget hpre
    rw [hstrip] at htarget2
    have hlast2 : ({ r with messages := r.messages.dropLast ++ [last2] } :
        BuildReport).messages.getLast? = some last2 := List.getLast?_concat _
    obtain ⟨r2, hrun, he, hw, hb, hi, hmr, hmc, hlen, last3, hglast, htarget3⟩ :=
      ih { r with messages := r.messages.dropLast ++ [last2] } last2 (cur ++ trimStart t)
        hlast2 htarget2 (fun u hu => hts u (by simp [hu]))
    refine ⟨r2, ?_, he, hw, hb, hi, hmr, hmc, ?_, last3, hglast, ?_⟩
    · simp only [List.map_cons, parseLines, hstep2]
      exact hrun
    · rw [hlen]
      exact hlen2
    · simpa [List.append_assoc] using htarget3


theorem C3_continuation_merge_witness :
    ∃ last2,
      (Message.warning { full := "Package foo Warning: A".toList, details := [("type", "Package".toList), ("package", "foo".toList), ("message", ['A'])], context_lines := [] }).extend_message
        (trimStart (trimStartMatches (contPattern "foo".toList) "(foo) B".toList)) = some last2 ∧
      parseStep { errors := 0, warnings := 1, badboxes := 0, info := 0, missing_references := 0, missing_citations := 0, messages := [Message.warning { full := "Package foo Warning: A".toList, details := [("type", "Package".toList), ("package", "foo".toList), ("message", ['A'])], context_lines := [] }] } "(foo) B".toList =
        some { errors := 0, warnings := 1, badboxes := 0, info := 0, missing_references := 0, missing_citations := 0, messages := ([Message.warning { full := "Package foo Warning: A".toList, details := [("type", "Package".toList), ("package", "foo".toList), ("message", ['A'])], context_lines := [] }] : List Message).dropLast ++ [last2] } ∧
      mergeTarget last2 "foo".toList
        (['A'] ++ trimStart (trimStartMatches (contPattern "foo".toList) "(foo) B".toList)) ∧
      (([Message.warning { full := "Package foo Warning: A".toList, details := [("type", "Package".toList), ("package", "foo".toList), ("message", ['A'])], context_lines := [] }] : List Message).dropLast ++ [last2]).length =
        ([Message.warning { full := "Package foo Warning: A".toList, details := [("type", "Package".toList), ("package", "foo".toList), ("message", ['A'])], context_lines := [] }] : List Message).length :=
  C3_continuation_merge.1
    { errors := 0, warnings := 1, badboxes := 0, info := 0, missing_references := 0, missing_citations := 0, messages := [Message.warning { full := "Package foo Warning: A".toList, details := [("type", "Package".toList), ("package", "foo".toList), ("message", ['A'])], context_lines := [] }] }
    (Message.warning { full := "Package foo Warning: A".toList, details := [("type", "Package".toList), ("package", "foo".toList), ("message", ['A'])], context_lines := [] })
    "foo".toList "(foo) B".toList ['A'] rfl
    ⟨rfl, { full := "Package foo Warning: A".toList, details := [("type", "Package".toList), ("package", "foo".toList), ("message", ['A'])], context_lines := [] }, Or.inr (Or.inl rfl), rfl⟩ rfl

/-- C10: the text appended by an accepted continuation merge is the physical
line with every leading repetition of the "(name) " prefix removed (not just
one occurrence) and leading whitespace then trimmed, the line's trailing
newline being retained; consequently a message extended by several
continuation lines contains embedded newline characters between consecutive
continuation texts. -/
theorem C10_continuation_text :
    (∀ (p t : List Char) (k : Nat), p ≠ [] → p.isPrefixOf t = false →
      trimStartMatches p (repN p k ++ t) = t) ∧
    (∀ (r : BuildReport) (last : Message) (cmpt line : List Char),
      r.messages.getLast? = some last →
      last.get_component_name = some cmpt →
      (contPattern cmpt).isPrefixOf line = true →
      parseStep r line =
        (last.extend_message (trimStart (trimStartMatches (contPattern cmpt) line))).map
          (fun last2 => { r with messages := r.messages.dropLast ++ [last2] })) ∧
    (∀ t : List Char, trimStart t ≠ [] → (trimStart t).getLast? = t.getLast?) ∧
    (∃ i, parse_log "Package foo Warning: A\n(foo) B\n(foo) C\n".toList =
      some { errors := 0, warnings := 1, badboxes := 0, info := 0,
             missing_references := 0, missing_citations := 0,
             messages := [Message.warning i] } ∧
      lookupD "message" i.details = some "AB\nC\n".toList) := by
  refine ⟨fun p t k hp h => trimStartMatches_repN p t hp h k,
    fun r last cmpt line h1 h2 h3 => parseStep_merge r last cmpt line h1 h2 h3,
    fun t h => dropWhile_getLast isWs t h, ⟨_, rfl, rfl⟩⟩

theorem C10_continuation_text_witness :
    trimStartMatches ['(', 'x', ')', ' '] (repN ['(', 'x', ')', ' '] 2 ++ ['y']) = ['y'] :=
  C10_continuation_text.1 ['(', 'x', ')', ' '] ['y'] 2 (by decide) (by decide)

end Texoutparse
